import Mathlib

/-!
Verification of the CarPulse frontend chat API client (`src/api/chatApi.js`).

The file shallowly embeds the client's operations in Lean:

* a JSON value type `JsValue` with JavaScript truthiness, and an executable
  model of `JSON.parse` (objects, arrays, strings with escapes, numbers,
  literals; full-input consumption, last-wins duplicate keys);
* the SSE decoding loop of `sendMessageStream` (incremental UTF-8 text
  decoding, newline splitting, `data:` prefix stripping, silent discard of
  malformed records, truthy-`content` accumulation);
* the HTTP wrappers `safeJson`, `listSessions`, `createSession`,
  `getSession`, `deleteSession`, `uploadFile` over an explicit fetch-outcome
  type (network error, or a response with status / body / body-read failure);
* the vehicle-id extraction that scans the message text with the pattern
  `(?:vehicle\s*id|id)[:\s]*([a-zA-Z0-9-]+)` (case-insensitive, leftmost
  match), and the payload construction of `sendMessageStream`.

JavaScript control flow that throws is modelled with `Except String`;
a `fetch` rejection is a distinct `FetchOutcome` constructor.  Unicode
whitespace beyond the ASCII range plus NBSP is omitted from the whitespace
classes (every input in the claims is ASCII).
-/

namespace CarPulse

/-- Brace characters are referred to through these constants. -/
def lbrace : Char := Char.ofNat 123

def rbrace : Char := Char.ofNat 125

/-- JSON values as produced by `JSON.parse`.  Numbers are kept as a decimal
mantissa/exponent pair (value = `mantissa * 10 ^ exp10`), which is exact for
every JSON numeral and suffices to decide JavaScript truthiness. -/
inductive JsValue where
  | null : JsValue
  | bool (b : Bool) : JsValue
  | num (mantissa : Int) (exp10 : Int) : JsValue
  | str (s : String) : JsValue
  | arr (elems : List JsValue) : JsValue
  | obj (fields : List (String × JsValue)) : JsValue

/-- JavaScript truthiness of a JSON value: `null`, `false`, `±0` and `""`
are falsy; every array and object is truthy. -/
def JsValue.truthy : JsValue → Bool
  | .null => false
  | .bool b => b
  | .num m _ => m ≠ 0
  | .str s => s ≠ ""
  | .arr _ => true
  | .obj _ => true

/-- Property access on a parsed object: with duplicate keys `JSON.parse`
keeps the last occurrence, hence the reversed lookup. -/
def objGet (fields : List (String × JsValue)) (key : String) : Option JsValue :=
  fields.reverse.lookup key

/-- `parsed?.content`: `undefined` (here `none`) unless `parsed` is an object
with a `"content"` member.  Non-object values have no own `content` property. -/
def contentField : JsValue → Option JsValue
  | .obj fields => objGet fields "content"
  | _ => none

/-! ### A model of `JSON.parse` -/

/-- JSON insignificant whitespace. -/
def isJsonWs (c : Char) : Bool := c = ' ' || c = '\t' || c = '\n' || c = '\r'

def skipWs (cs : List Char) : List Char := cs.dropWhile isJsonWs

def hexVal (c : Char) : Option Nat :=
  if '0' ≤ c ∧ c ≤ '9' then some (c.toNat - '0'.toNat)
  else if 'a' ≤ c ∧ c ≤ 'f' then some (c.toNat - 'a'.toNat + 10)
  else if 'A' ≤ c ∧ c ≤ 'F' then some (c.toNat - 'A'.toNat + 10)
  else none

/-- Body of a JSON string after the opening quote: returns the decoded
characters and the input after the closing quote.  Escapes `\" \\ \/ \b \f
\n \r \t \uXXXX` are decoded; unescaped control characters are rejected.
(A `\u` escape denoting a lone surrogate is out of `Char`'s range and not
modelled faithfully; no claim involves surrogates.) -/
def parseStringBody : Nat → List Char → Option (List Char × List Char)
  | 0, _ => none
  | _, [] => none
  | fuel+1, c :: cs =>
    if c = '"' then some ([], cs)
    else if c = '\\' then
      match cs with
      | [] => none
      | e :: cs' =>
        let esc : Option (Char × List Char) :=
          if e = '"' then some ('"', cs')
          else if e = '\\' then some ('\\', cs')
          else if e = '/' then some ('/', cs')
          else if e = 'b' then some ('\x08', cs')
          else if e = 'f' then some ('\x0c', cs')
          else if e = 'n' then some ('\n', cs')
          else if e = 'r' then some ('\r', cs')
          else if e = 't' then some ('\t', cs')
          else if e = 'u' then
            match cs' with
            | h1 :: h2 :: h3 :: h4 :: cs'' =>
              match hexVal h1, hexVal h2, hexVal h3, hexVal h4 with
              | some a, some b, some c2, some d =>
                some (Char.ofNat (((a * 16 + b) * 16 + c2) * 16 + d), cs'')
              | _, _, _, _ => none
            | _ => none
          else none
        match esc with
        | some (ch, rest) =>
          match parseStringBody fuel rest with
          | some (s, r) => some (ch :: s, r)
          | none => none
        | none => none
    else if c.toNat < 0x20 then none
    else
      match parseStringBody fuel cs with
      | some (s, r) => some (c :: s, r)
      | none => none

def digitsToNat (ds : List Char) : Nat :=
  ds.foldl (fun n c => n * 10 + (c.toNat - '0'.toNat)) 0

/-- JSON numeral: `-? (0 | [1-9][0-9]*) ('.' [0-9]+)? ([eE] [+-]? [0-9]+)?`. -/
def parseNumber (cs : List Char) : Option (JsValue × List Char) :=
  let signAndRest : Int × List Char :=
    match cs with
    | '-' :: r => (-1, r)
    | _ => (1, cs)
  let sgn := signAndRest.1
  let cs1 := signAndRest.2
  match cs1 with
  | [] => none
  | d :: _ =>
    if !d.isDigit then none
    else
      let intDs := if d = '0' then ['0'] else cs1.takeWhile Char.isDigit
      let rest1 := cs1.drop intDs.length
      let fracStep : Option (List Char × List Char) :=
        match rest1 with
        | '.' :: r =>
          let f := r.takeWhile Char.isDigit
          if f.isEmpty then none else some (f, r.drop f.length)
        | _ => some ([], rest1)
      match fracStep with
      | none => none
      | some (fracDs, rest2) =>
        let expStep : Option (Int × List Char) :=
          match rest2 with
          | e :: r =>
            if e = 'e' || e = 'E' then
              let esignAndRest : Int × List Char :=
                match r with
                | '+' :: rr => (1, rr)
                | '-' :: rr => (-1, rr)
                | _ => (1, r)
              let eds := esignAndRest.2.takeWhile Char.isDigit
              if eds.isEmpty then none
              else some (esignAndRest.1 * (digitsToNat eds : Int), esignAndRest.2.drop eds.length)
            else some (0, rest2)
          | [] => some (0, rest2)
        match expStep with
        | none => none
        | some (ex, rest3) =>
          some (.num (sgn * (digitsToNat (intDs ++ fracDs) : Int)) (ex - fracDs.length), rest3)

mutual

/-- JSON value (input already stripped of leading whitespace). -/
def parseValue : Nat → List Char → Option (JsValue × List Char)
  | 0, _ => none
  | fuel+1, cs =>
    match cs with
    | [] => none
    | 'n' :: 'u' :: 'l' :: 'l' :: r => some (.null, r)
    | 't' :: 'r' :: 'u' :: 'e' :: r => some (.bool true, r)
    | 'f' :: 'a' :: 'l' :: 's' :: 'e' :: r => some (.bool false, r)
    | '"' :: r =>
      match parseStringBody (r.length + 1) r with
      | some (s, r2) => some (.str (String.mk s), r2)
      | none => none
    | '[' :: r =>
      let r1 := skipWs r
      match r1 with
      | ']' :: r2 => some (.arr [], r2)
      | _ =>
        match parseElems fuel r1 with
        | some (vs, r2) => some (.arr vs, r2)
        | none => none
    | c :: r =>
      if c = lbrace then
        let r1 := skipWs r
        match r1 with
        | c2 :: r2 =>
          if c2 = rbrace then some (.obj [], r2)
          else
            match parseMembers fuel r1 with
            | some (ms, r2') => some (.obj ms, r2')
            | none => none
        | [] => none
      else parseNumber cs

/-- Comma-separated array elements up to the closing bracket. -/
def parseElems : Nat → List Char → Option (List JsValue × List Char)
  | 0, _ => none
  | fuel+1, cs =>
    match parseValue fuel cs with
    | none => none
    | some (v, r) =>
      match skipWs r with
      | ',' :: r2 =>
        match parseElems fuel (skipWs r2) with
        | some (vs, r3) => some (v :: vs, r3)
        | none => none
      | ']' :: r2 => some ([v], r2)
      | _ => none

/-- Comma-separated object members up to the closing brace. -/
def parseMembers : Nat → List Char → Option (List (String × JsValue) × List Char)
  | 0, _ => none
  | fuel+1, cs =>
    match cs with
    | '"' :: r =>
      match parseStringBody (r.length + 1) r with
      | none => none
      | some (k, r2) =>
        match skipWs r2 with
        | ':' :: r3 =>
          match parseValue fuel (skipWs r3) with
          | none => none
          | some (v, r4) =>
            match skipWs r4 with
            | ',' :: r5 =>
              match parseMembers fuel (skipWs r5) with
              | some (ms, r6) => some ((String.mk k, v) :: ms, r6)
              | none => none
            | c :: r5 =>
              if c = rbrace then some ([(String.mk k, v)], r5)
              else none
            | [] => none
        | _ => none
    | _ => none

end

/-- `JSON.parse` on a character list: one value, then only trailing
whitespace.  The fuel `2 * length + 2` dominates the recursion depth (every
recursive call follows the consumption of at least one input character). -/
def jsonParseL (cs : List Char) : Option JsValue :=
  match parseValue (2 * cs.length + 2) (skipWs cs) with
  | some (v, r) => if (skipWs r).isEmpty then some v else none
  | none => none

def jsonParse (s : String) : Option JsValue := jsonParseL s.data

/-! ### The SSE decoding loop of `sendMessageStream`

```js
const reader = res.body.getReader();
const decoder = new TextDecoder();
let buffer = "";
const contents = [];
while (true) {
  const { done, value } = await reader.read();
  if (done) break;
  buffer += decoder.decode(value, { stream: true });
  let newlineIndex;
  while ((newlineIndex = buffer.indexOf("\n")) !== -1) {
    let line = buffer.slice(0, newlineIndex);
    buffer = buffer.slice(newlineIndex + 1);
    line = line.trim();
    if (!line) continue;
    const jsonPart = line.startsWith("data:") ? line.slice(5).trim() : line;
    try {
      const parsed = JSON.parse(jsonPart);
      if (parsed?.content) contents.push(parsed.content);
    } catch \x7b /* ignore malformed SSE chunks */ \x7d
  }
}
return contents;
```
-/

/-- `String.prototype.trim` whitespace, restricted to the ASCII range plus
NBSP (the remaining Unicode space characters play no role in any claim). -/
def isJsTrimWs (c : Char) : Bool :=
  c = ' ' || c = '\t' || c = '\n' || c = '\r' || c = '\x0b' || c = '\x0c' || c = '\xa0'

def jsTrim (cs : List Char) : List Char :=
  ((cs.dropWhile isJsTrimWs).reverse.dropWhile isJsTrimWs).reverse

/-- The candidate JSON text of one extracted line: trim, skip if empty, then
strip a leading `data:` (and trim again). -/
def candidate (line : List Char) : Option (List Char) :=
  let l := jsTrim line
  if l.isEmpty then none
  else some (if ("data:".data).isPrefixOf l then jsTrim (l.drop 5) else l)

/-- Processing of one complete line: parse the candidate as JSON and append
the `content` field when it is present and truthy; any failure leaves the
accumulator unchanged. -/
def processLine (acc : List JsValue) (line : List Char) : List JsValue :=
  match candidate line with
  | none => acc
  | some cand =>
    match jsonParseL cand with
    | none => acc
    | some parsed =>
      match contentField parsed with
      | some c => if c.truthy then acc ++ [c] else acc
      | none => acc

/-- The inner `while (buffer.indexOf("\n") !== -1)` loop: split the buffer at
each newline, process every complete line, and return the remaining partial
line together with the accumulated contents.  `cur` is the prefix of the
current line read so far. -/
def drainAux (acc : List JsValue) (cur : List Char) : List Char → List Char × List JsValue
  | [] => (cur, acc)
  | c :: rest =>
    if c = '\n' then drainAux (processLine acc cur) [] rest
    else drainAux acc (cur ++ [c]) rest

/-- Decoded-text stream state: the undrained buffer (never contains a
newline) and the contents accumulated so far. -/
structure SseState where
  buffer : List Char
  contents : List JsValue

/-- One iteration of the outer read loop, at the level of decoded text:
append the decoded chunk to the buffer and drain all complete lines. -/
def feedChunk (st : SseState) (chunkText : List Char) : SseState :=
  let p := drainAux st.contents [] (st.buffer ++ chunkText)
  ⟨p.1, p.2⟩

/-- The decoding loop on a stream of already-decoded text chunks: the
leftover buffer at end of stream is dropped, only `contents` is returned. -/
def runStreamChars (chunks : List (List Char)) : List JsValue :=
  (chunks.foldl feedChunk ⟨[], []⟩).contents

/-! ### Incremental UTF-8 decoding (`TextDecoder` with `stream: true`) -/

/-- Total length of a UTF-8 sequence from its lead byte (`0` = invalid lead). -/
def seqLen (b : Nat) : Nat :=
  if b < 0x80 then 1
  else if b < 0xC0 then 0
  else if b < 0xE0 then 2
  else if b < 0xF0 then 3
  else if b < 0xF8 then 4
  else 0

/-- Payload bits of a lead byte. -/
def leadVal (b : Nat) : Nat :=
  if b < 0x80 then b
  else if b < 0xE0 then b - 0xC0
  else if b < 0xF0 then b - 0xE0
  else b - 0xF0

def isContByte (b : Nat) : Bool := 0x80 ≤ b && b < 0xC0

/-- Code point assembled from a complete sequence (lead byte first). -/
def assemble : List Nat → Nat
  | [] => 0
  | b :: rest => rest.foldl (fun acc c => acc * 64 + (c - 0x80)) (leadVal b)

/-- A scalar value as a `Char`; surrogate-range or out-of-range code points
become U+FFFD.  (Overlong encodings are decoded by value rather than
replaced; immaterial here, all claim inputs are ASCII.) -/
def scalarChar (n : Nat) : Char :=
  if n < 0xD800 ∨ (0xDFFF < n ∧ n ≤ 0x10FFFF) then Char.ofNat n else '�'

/-- One byte through the incremental decoder.  The state is the byte prefix
of an incomplete sequence; malformed input emits U+FFFD and resynchronises. -/
def decodeByte (pending : List Nat) (b : Nat) : List Nat × List Char :=
  match pending with
  | [] =>
    if b < 0x80 then ([], [Char.ofNat b])
    else if seqLen b = 0 then ([], ['�'])
    else ([b], [])
  | lead :: _ =>
    if isContByte b then
      let pending' := pending ++ [b]
      if pending'.length = seqLen lead then ([], [scalarChar (assemble pending')])
      else (pending', [])
    else
      if b < 0x80 then ([], ['�', Char.ofNat b])
      else if seqLen b = 0 then ([], ['�', '�'])
      else ([b], ['�'])

/-- `decoder.decode(value, { stream: true })`: decode a chunk of bytes,
carrying the incomplete-sequence state across chunk boundaries. -/
def decodeChunk (pending : List Nat) (chunk : List Nat) : List Nat × List Char :=
  chunk.foldl
    (fun st b =>
      let p := decodeByte st.1 b
      (p.1, st.2 ++ p.2))
    (pending, [])

/-- Byte-level stream state: decoder state, text buffer, contents. -/
structure SseByteState where
  pending : List Nat
  buffer : List Char
  contents : List JsValue

/-- One iteration of the outer read loop on a raw byte chunk. -/
def feedByteChunk (st : SseByteState) (chunk : List Nat) : SseByteState :=
  let d := decodeChunk st.pending chunk
  let p := drainAux st.contents [] (st.buffer ++ d.2)
  ⟨d.1, p.1, p.2⟩

/-- The full decoding loop of `sendMessageStream` on the raw byte chunks
delivered by `reader.read()`. -/
def runStreamBytes (chunks : List (List Nat)) : List JsValue :=
  (chunks.foldl feedByteChunk ⟨[], [], []⟩).contents

/-! ### The HTTP layer -/

/-- An HTTP response as observed by this client: status code, body text, and
whether reading the body fails (`res.text()` / `res.json()` reject). -/
structure HttpResponse where
  status : Nat
  body : String
  bodyErr : Bool

/-- The outcome of one `fetch` call: a rejection (network/transport failure)
or a response. -/
inductive FetchOutcome where
  | networkError (e : String) : FetchOutcome
  | response (res : HttpResponse) : FetchOutcome

/-- `res.ok`: status in the inclusive range 200–299. -/
def resOk (res : HttpResponse) : Bool := 200 ≤ res.status && res.status < 300

/-- `await res.text().catch(() => "")`. -/
def bodyText (res : HttpResponse) : String := if res.bodyErr then "" else res.body

/-- The error message thrown on a non-success response:
`text || "HTTP " + res.status`. -/
def httpErrMsg (res : HttpResponse) : String :=
  if bodyText res = "" then "HTTP " ++ toString res.status else bodyText res

/-- `safeJson`: `null` on a 204 response, `try (await res.json()) catch null`
otherwise.  (`JsValue.null` doubles as JavaScript's `null`.) -/
def safeJson (res : HttpResponse) : JsValue :=
  if res.status = 204 then JsValue.null
  else if res.bodyErr then JsValue.null
  else (jsonParse res.body).getD JsValue.null

/-- `listSessions`: the whole call is wrapped in `try/catch` returning `[]`;
a non-success status returns `[]`; otherwise `(await safeJson(res)) || []`. -/
def listSessions (f : FetchOutcome) : Except String JsValue :=
  match f with
  | .networkError _ => Except.ok (JsValue.arr [])
  | .response res =>
    if !resOk res then Except.ok (JsValue.arr [])
    else Except.ok (if (safeJson res).truthy then safeJson res else JsValue.arr [])

/-- `createSession`: throws `httpErrMsg` on a non-success response, else the
safely parsed body.  A `fetch` rejection propagates (no `try/catch`). -/
def createSession (f : FetchOutcome) : Except String JsValue :=
  match f with
  | .networkError e => Except.error e
  | .response res =>
    if !resOk res then Except.error (httpErrMsg res)
    else Except.ok (safeJson res)

/-- `deleteSession`: same error contract as `createSession`, no result. -/
def deleteSession (f : FetchOutcome) : Except String Unit :=
  match f with
  | .networkError e => Except.error e
  | .response res =>
    if !resOk res then Except.error (httpErrMsg res)
    else Except.ok ()

/-- `getSession`: `null` on a non-success status, else the safely parsed
body.  There is no `try/catch`, so a `fetch` rejection propagates. -/
def getSession (f : FetchOutcome) : Except String JsValue :=
  match f with
  | .networkError e => Except.error e
  | .response res =>
    if !resOk res then Except.ok JsValue.null
    else Except.ok (safeJson res)

/-- `uploadFile`: same error contract as `createSession`. -/
def uploadFile (f : FetchOutcome) : Except String JsValue :=
  match f with
  | .networkError e => Except.error e
  | .response res =>
    if !resOk res then Except.error (httpErrMsg res)
    else Except.ok (safeJson res)

def exceptOk {α : Type} : Except String α → Bool
  | .ok _ => true
  | .error _ => false

/-! ### Vehicle-id extraction

`text.match(/(?:vehicle\s*id|id)[:\s]*([a-zA-Z0-9-]+)/i)`: leftmost match,
alternation tries `vehicle\s*id` before `id`.  The greedy `\s*` and `[:\s]*`
never need backtracking: `i` is not whitespace, and no separator character
belongs to the token class `[a-zA-Z0-9-]`. -/

/-- `\s`, restricted to the ASCII range plus NBSP (as for `jsTrim`). -/
def isJsSpace (c : Char) : Bool :=
  c = ' ' || c = '\t' || c = '\n' || c = '\r' || c = '\x0b' || c = '\x0c' || c = '\xa0'

/-- A character of the capture class `[a-zA-Z0-9-]`. -/
def isIdTokenChar (c : Char) : Bool := c.isAlpha || c.isDigit || c = '-'

/-- Case-insensitive literal match: on success, the input after the literal. -/
def stripCI : List Char → List Char → Option (List Char)
  | [], cs => some cs
  | _ :: _, [] => none
  | p :: ps, c :: cs => if c.toLower = p.toLower then stripCI ps cs else none

/-- `[:\s]*([a-zA-Z0-9-]+)` after a matched label: skip separators, then
capture a nonempty token. -/
def tokenAfter (rest : List Char) : Option String :=
  let tok := (rest.dropWhile (fun c => c = ':' || isJsSpace c)).takeWhile isIdTokenChar
  if tok.isEmpty then none else some (String.mk tok)

/-- First alternative `vehicle\s*id` followed by the separator-and-token
tail, anchored at the start of `cs`. -/
def branchVehicle (cs : List Char) : Option String :=
  match stripCI "vehicle".data cs with
  | none => none
  | some r =>
    match stripCI "id".data (r.dropWhile isJsSpace) with
    | none => none
    | some r2 => tokenAfter r2

/-- Second alternative `id` followed by the separator-and-token tail. -/
def branchId (cs : List Char) : Option String :=
  match stripCI "id".data cs with
  | none => none
  | some r => tokenAfter r

/-- The whole pattern anchored at the start of `cs` (regex alternation:
if `vehicle\s*id` cannot complete a match here, `id` is tried). -/
def matchPatternAt (cs : List Char) : Option String :=
  match branchVehicle cs with
  | some t => some t
  | none => branchId cs

/-- Leftmost match: try the pattern at every start position. -/
def scanVehicleId : List Char → Option String
  | [] => none
  | c :: rest =>
    match matchPatternAt (c :: rest) with
    | some t => some t
    | none => scanVehicleId rest

/-- `match[1]` of the vehicle-id regex, or `none` when the text does not
match. -/
def extractVehicleId (s : String) : Option String := scanVehicleId s.data

/-- Spec-side characterisation of an id-like token: some suffix of the text
starts with `id` (case-insensitively) followed by `[:\s]*` separators and at
least one `[a-zA-Z0-9-]` character. -/
def hasIdLike : List Char → Bool
  | [] => false
  | c :: rest => (branchId (c :: rest)).isSome || hasIdLike rest

/-! ### `sendMessageStream`: validation and payload construction -/

/-- One element of the `parts` array of the outgoing message. -/
inductive Part where
  | text (s : String) : Part
  | inlineData (v : JsValue) : Part

/-- `if (text && text.trim()) parts.push({ text }); if (inlineData)
parts.push({ inlineData })`. -/
def mkParts (text : Option String) (inlineData : Option JsValue) : List Part :=
  (match text with
   | some s => if s ≠ "" && !(jsTrim s.data).isEmpty then [Part.text s] else []
   | none => []) ++
  (match inlineData with
   | some v => if v.truthy then [Part.inlineData v] else []
   | none => [])

/-- `stateDelta`: `{ vehicle_id: match[1] }` when the regex matches the
(truthy) text, otherwise `null`. -/
def mkStateDelta (text : Option String) : Option JsValue :=
  match text with
  | none => none
  | some s =>
    if s = "" then none
    else
      match extractVehicleId s with
      | some tok => some (JsValue.obj [("vehicle_id", JsValue.str tok)])
      | none => none

/-- The JSON payload POSTed to `/run_sse`. -/
structure Payload where
  appName : String
  newMessageRole : String
  newMessageParts : List Part
  sessionId : String
  stateDelta : Option JsValue
  streaming : Bool
  userId : String

def AGENT_NAME : String := "agent"

/-- `!text`: `text` is absent or the empty string. -/
def textFalsy : Option String → Bool
  | none => true
  | some s => s = ""

/-- `!inlineData`: absent (the default `null`) or a falsy value. -/
def inlineFalsy : Option JsValue → Bool
  | none => true
  | some v => !v.truthy

/-- `sendMessageStream({ sessionId, text, inlineData })`.  The two
validation throws come first (before any network I/O — the result for those
inputs does not depend on `f`, `hasBody` or `chunks`); then the fetch
rejection, the non-success status, the missing-stream-body error, and
finally the decoding loop.  The constructed payload is returned alongside
the contents so that its fields can be observed. -/
def sendMessageStream (sessionId : String) (text : Option String)
    (inlineData : Option JsValue) (f : FetchOutcome) (hasBody : Bool)
    (chunks : List (List Nat)) : Except String (Payload × List JsValue) :=
  if sessionId = "" then Except.error "No active session id"
  else if textFalsy text && inlineFalsy inlineData then Except.error "Message empty"
  else
    let payload : Payload :=
      ⟨AGENT_NAME, "user", mkParts text inlineData, sessionId, mkStateDelta text,
        false, "user"⟩
    match f with
    | .networkError e => Except.error e
    | .response res =>
      if !resOk res then Except.error (httpErrMsg res)
      else if !hasBody then Except.error "Streaming not supported in this browser."
      else Except.ok (payload, runStreamBytes chunks)

/-! ### Lemmas about the decoding loop -/

/-- Draining a concatenation first drains the left part, then continues from
the state it leaves behind. -/
theorem drainAux_append (a : List Char) :
    ∀ (b : List Char) (acc : List JsValue) (cur : List Char),
      drainAux acc cur (a ++ b) =
        drainAux (drainAux acc cur a).2 (drainAux acc cur a).1 b := by
  induction a with
  | nil => intro b acc cur; simp [drainAux]
  | cons c a ih =>
    intro b acc cur
    by_cases hc : c = '\n'
    · simp [drainAux, hc, ih]
    · simp [drainAux, hc, ih]

/-- A newline-free buffer suffix is never processed: it only extends the
current partial line. -/
theorem drainAux_no_newline (b : List Char) (hb : '\n' ∉ b) :
    ∀ (acc : List JsValue) (cur : List Char), drainAux acc cur b = (cur ++ b, acc) := by
  induction b with
  | nil => intro acc cur; simp [drainAux]
  | cons c b ih =>
    intro acc cur
    have hc : ¬ c = '\n' := fun h => hb (h ▸ List.mem_cons_self c b)
    have hb' : '\n' ∉ b := fun h => hb (List.mem_cons_of_mem c h)
    simp [drainAux, hc, ih hb']

/-- A newline-free partial line already in the buffer may equivalently be
prepended to the incoming text. -/
theorem drainAux_shift (cur : List Char) (h : '\n' ∉ cur) :
    ∀ (pre : List Char) (acc : List JsValue) (b : List Char),
      drainAux acc pre (cur ++ b) = drainAux acc (pre ++ cur) b := by
  induction cur with
  | nil => intro pre acc b; simp
  | cons c cur ih =>
    intro pre acc b
    have hc : ¬ c = '\n' := fun hcc => h (hcc ▸ List.mem_cons_self c cur)
    have h' : '\n' ∉ cur := fun hm => h (List.mem_cons_of_mem c hm)
    have : drainAux acc pre (c :: (cur ++ b)) = drainAux acc (pre ++ [c]) (cur ++ b) := by
      simp [drainAux, hc]
    simp [this, ih h' (pre ++ [c])]

/-- The buffer left over by the drain loop contains no newline. -/
theorem drainAux_fst_no_newline (b : List Char) :
    ∀ (acc : List JsValue) (cur : List Char), '\n' ∉ cur → '\n' ∉ (drainAux acc cur b).1 := by
  induction b with
  | nil => intro acc cur h; simpa [drainAux] using h
  | cons c b ih =>
    intro acc cur h
    by_cases hc : c = '\n'
    · simpa [drainAux, hc] using ih (processLine acc cur) [] (by simp)
    · have hcur : '\n' ∉ cur ++ [c] := by
        intro hm
        rcases List.mem_append.mp hm with hm | hm
        · exact h hm
        · exact hc (List.mem_singleton.mp hm).symm
      simpa [drainAux, hc] using ih acc (cur ++ [c]) hcur

/-- Folding the read loop over text chunks is the same as draining the
concatenation of all chunks at once. -/
theorem foldl_feedChunk (chunks : List (List Char)) :
    ∀ (st : SseState), '\n' ∉ st.buffer →
      chunks.foldl feedChunk st =
        ⟨(drainAux st.contents [] (st.buffer ++ chunks.flatten)).1,
         (drainAux st.contents [] (st.buffer ++ chunks.flatten)).2⟩ := by
  induction chunks with
  | nil =>
    intro st h
    simp [drainAux_no_newline st.buffer h]
  | cons c rest ih =>
    intro st h
    have hstep : List.foldl feedChunk st (c :: rest) = List.foldl feedChunk (feedChunk st c) rest :=
      rfl
    have hbuf : '\n' ∉ (feedChunk st c).buffer := by
      simpa [feedChunk] using drainAux_fst_no_newline (st.buffer ++ c) st.contents [] (by simp)
    rw [hstep, ih (feedChunk st c) hbuf]
    have hflat : st.buffer ++ (c :: rest).flatten = (st.buffer ++ c) ++ rest.flatten := by
      simp [List.flatten_cons]
    rw [hflat, drainAux_append (st.buffer ++ c) rest.flatten st.contents []]
    have hfc : (feedChunk st c).contents = (drainAux st.contents [] (st.buffer ++ c)).2 := rfl
    have hfb : (feedChunk st c).buffer = (drainAux st.contents [] (st.buffer ++ c)).1 := rfl
    rw [hfc, hfb]
    rw [drainAux_shift (drainAux st.contents [] (st.buffer ++ c)).1
          (drainAux_fst_no_newline (st.buffer ++ c) st.contents [] (by simp)) []
          (drainAux st.contents [] (st.buffer ++ c)).2 rest.flatten]
    simp

/-- The contents computed by the decoding loop depend only on the
concatenation of the decoded chunks: they are the contents extracted from
the complete lines of the whole stream. -/
theorem runStreamChars_eq (chunks : List (List Char)) :
    runStreamChars chunks = (drainAux [] [] chunks.flatten).2 := by
  have h := foldl_feedChunk chunks ⟨[], []⟩ (by simp)
  simp only [runStreamChars, h, List.nil_append]

/-- An ASCII byte leaves the incremental decoder stateless and decodes to
its own code point. -/
theorem decodeChunk_ascii (chunk : List Nat) (h : ∀ b ∈ chunk, b < 128) :
    decodeChunk [] chunk = ([], chunk.map Char.ofNat) := by
  suffices hgen : ∀ (c : List Nat), (∀ b ∈ c, b < 128) → ∀ (acc : List Char),
      c.foldl (fun st b => let p := decodeByte st.1 b; (p.1, st.2 ++ p.2)) ([], acc) =
        ([], acc ++ c.map Char.ofNat) by
    simpa [decodeChunk] using hgen chunk h []
  intro c hc
  induction c with
  | nil => intro acc; simp
  | cons b bs ih =>
    intro acc
    have hb : b < 128 := hc b (List.mem_cons_self b bs)
    have hbs : ∀ x ∈ bs, x < 128 := fun x hx => hc x (List.mem_cons_of_mem b hx)
    have hstep : decodeByte [] b = ([], [Char.ofNat b]) := by
      simp [decodeByte, hb]
    simp only [List.foldl_cons, hstep]
    simpa using ih hbs (acc ++ [Char.ofNat b])

/-- On an all-ASCII byte stream, the byte-level loop coincides with the
text-level loop applied to the bytes read as characters. -/
theorem foldl_feedByteChunk_ascii (chunks : List (List Nat))
    (h : ∀ c ∈ chunks, ∀ b ∈ c, b < 128) :
    ∀ (buf : List Char) (cts : List JsValue),
      chunks.foldl feedByteChunk ⟨[], buf, cts⟩ =
        ⟨[], (List.foldl feedChunk ⟨buf, cts⟩ (chunks.map (List.map Char.ofNat))).buffer,
          (List.foldl feedChunk ⟨buf, cts⟩ (chunks.map (List.map Char.ofNat))).contents⟩ := by
  induction chunks with
  | nil => intro buf cts; simp
  | cons c rest ih =>
    intro buf cts
    have hc : ∀ b ∈ c, b < 128 := h c (List.mem_cons_self c rest)
    have hrest : ∀ x ∈ rest, ∀ b ∈ x, b < 128 := fun x hx => h x (List.mem_cons_of_mem c hx)
    have hfeed : feedByteChunk ⟨[], buf, cts⟩ c =
        ⟨[], (feedChunk ⟨buf, cts⟩ (c.map Char.ofNat)).buffer,
          (feedChunk ⟨buf, cts⟩ (c.map Char.ofNat)).contents⟩ := by
      simp [feedByteChunk, feedChunk, decodeChunk_ascii c hc]
    simp only [List.foldl_cons, hfeed]
    exact ih hrest _ _

/-- Byte-level run on ASCII input equals the text-level run. -/
theorem runStreamBytes_ascii (chunks : List (List Nat))
    (h : ∀ c ∈ chunks, ∀ b ∈ c, b < 128) :
    runStreamBytes chunks = runStreamChars (chunks.map (List.map Char.ofNat)) := by
  simp only [runStreamBytes, runStreamChars, foldl_feedByteChunk_ascii chunks h [] []]

/-! ### Lemmas about the vehicle-id scan -/

theorem stripCI_eq_drop (pat : List Char) :
    ∀ (cs r : List Char), stripCI pat cs = some r → r = cs.drop pat.length := by
  induction pat with
  | nil => intro cs r h; simpa [stripCI] using h.symm
  | cons p ps ih =>
    intro cs r h
    match cs with
    | [] => simp [stripCI] at h
    | c :: cs' =>
      by_cases hc : c.toLower = p.toLower
      · have h' : stripCI ps cs' = some r := by simpa [stripCI, hc] using h
        simpa using ih cs' r h'
      · simp [stripCI, hc] at h

/-- An id-like token found at any suffix is found by the full scan predicate. -/
theorem hasIdLike_of_suffix (cs : List Char) :
    ∀ (s : List Char), s <:+ cs → (branchId s).isSome = true → hasIdLike cs = true := by
  induction cs with
  | nil =>
    intro s hs hb
    rw [List.suffix_nil.mp hs] at hb
    simp [branchId, stripCI] at hb
  | cons c rest ih =>
    intro s hs hb
    rcases List.suffix_cons_iff.mp hs with h | h
    · rw [h] at hb
      simp [hasIdLike, hb]
    · simp [hasIdLike, ih s h hb]

/-- Inversion of a successful `vehicle\s*id` branch: the inner `id` match
gives an id-like occurrence at the suffix after `vehicle` and whitespace. -/
theorem branchVehicle_inv (cs : List Char) (t : String)
    (h : branchVehicle cs = some t) :
    ∃ r, stripCI "vehicle".data cs = some r ∧
      (branchId (r.dropWhile isJsSpace)).isSome = true := by
  unfold branchVehicle at h
  rcases h1 : stripCI "vehicle".data cs with _ | r
  · simp [h1] at h
  · simp only [h1] at h
    refine ⟨r, rfl, ?_⟩
    rcases h2 : stripCI "id".data (r.dropWhile isJsSpace) with _ | r2
    · simp [h2] at h
    · simp only [h2] at h
      simp [branchId, h2, h]

/-- If the regex matches anywhere, the text contains an id-like token. -/
theorem hasIdLike_of_scan (cs : List Char) :
    ∀ (t : String), scanVehicleId cs = some t → hasIdLike cs = true := by
  induction cs with
  | nil => intro t h; simp [scanVehicleId] at h
  | cons c rest ih =>
    intro t h
    rcases hm : matchPatternAt (c :: rest) with _ | t'
    · rw [scanVehicleId, hm] at h
      simp [hasIdLike, ih t h]
    · rcases hbv : branchVehicle (c :: rest) with _ | tv
      · have hbi : branchId (c :: rest) = some t' := by
          have := hm
          rw [matchPatternAt, hbv] at this
          exact this
        simp [hasIdLike, hbi]
      · -- the `vehicle\s*id` branch matched: the inner `id` occurrence is a
        -- suffix of `rest`, so the id-like predicate holds of `rest`
        obtain ⟨r, h1, hbi⟩ := branchVehicle_inv (c :: rest) tv hbv
        have hr : r = rest.drop 6 := by
          have := stripCI_eq_drop "vehicle".data (c :: rest) r h1
          simpa using this
        have hsuf : r.dropWhile isJsSpace <:+ rest :=
          (List.dropWhile_suffix isJsSpace).trans (hr ▸ List.drop_suffix 6 rest)
        have : hasIdLike rest = true :=
          hasIdLike_of_suffix rest (r.dropWhile isJsSpace) hsuf hbi
        simp [hasIdLike, this]

/-- Text with no id-like token never produces a match. -/
theorem scanVehicleId_eq_none (cs : List Char) (h : hasIdLike cs = false) :
    scanVehicleId cs = none := by
  rcases hscan : scanVehicleId cs with _ | t
  · rfl
  · rw [hasIdLike_of_scan cs t hscan] at h
    cases h

/-! ### Claim C1 -/

/-- The two SSE records of the chunking test, concatenated:
`data: {"content":"a"}\n` then `data: {"content":"b"}\n`. -/
def sseStreamAB : String :=
  "data: \x7b\"content\":\"a\"\x7d\ndata: \x7b\"content\":\"b\"\x7d\n"

def sseBytesAB : List Nat := sseStreamAB.data.map Char.toNat

/-- Claim C1: for every partition of the byte stream consisting of the
records `data: {"content":"a"}\n` followed by `data: {"content":"b"}\n`
into two or more chunks, at any byte boundaries (including mid-line and
mid-record), the decoding loop of `sendMessageStream` returns exactly
`["a", "b"]` in that order. -/
theorem sse_chunking_yields_ab (chunks : List (List Nat))
    (_hlen : 2 ≤ chunks.length) (hflat : chunks.flatten = sseBytesAB) :
    runStreamBytes chunks = [JsValue.str "a", JsValue.str "b"] := by
  have hascii : ∀ c ∈ chunks, ∀ b ∈ c, b < 128 := by
    intro c hc b hb
    have hmem : b ∈ chunks.flatten := List.mem_flatten.mpr ⟨c, hc, hb⟩
    rw [hflat] at hmem
    have hall : ∀ x ∈ sseBytesAB, x < 128 := by decide
    exact hall b hmem
  rw [runStreamBytes_ascii chunks hascii, runStreamChars_eq, ← List.map_flatten, hflat]
  rfl

def chunkW1 : List Nat := "data: \x7b\"co".data.map Char.toNat

def chunkW2 : List Nat :=
  "ntent\":\"a\"\x7d\ndata: \x7b\"content\":\"b\"\x7d\n".data.map Char.toNat

theorem sse_chunking_yields_ab_witness :
    runStreamBytes [chunkW1, chunkW2] = [JsValue.str "a", JsValue.str "b"] :=
  sse_chunking_yields_ab [chunkW1, chunkW2] (by decide) (by decide)

/-! ### Claim C2 -/

/-- Claim C2 counterexample: the record `data: {"content":""}` parses
successfully to an object that has a `content` field, yet its value is not
appended — the code pushes only *truthy* `content` values
(`if (parsed?.content)`), and the empty string is falsy. -/
theorem content_truthiness_counterexample :
    candidate ("data: \x7b\"content\":\"\"\x7d".data) =
      some ("\x7b\"content\":\"\"\x7d".data) ∧
    jsonParseL ("\x7b\"content\":\"\"\x7d".data) =
      some (JsValue.obj [("content", JsValue.str "")]) ∧
    contentField (JsValue.obj [("content", JsValue.str "")]) = some (JsValue.str "") ∧
    processLine [] ("data: \x7b\"content\":\"\"\x7d".data) = [] :=
  ⟨rfl, rfl, rfl, rfl⟩

/-- Claim C2 (amended): for every complete line whose candidate text parses
successfully as JSON, the `content` field's value is appended to the output
sequence if and only if the field is present and its value is truthy in the
JavaScript sense; falsy values (`null`, `false`, `0`, `""`) and absent
fields contribute nothing. -/
theorem content_appended_iff_truthy (acc : List JsValue) (line cand : List Char)
    (parsed : JsValue) (h1 : candidate line = some cand)
    (h2 : jsonParseL cand = some parsed) :
    processLine acc line =
      acc ++ (match contentField parsed with
        | some c => if c.truthy then [c] else []
        | none => []) := by
  simp only [processLine, h1, h2]
  rcases hc : contentField parsed with _ | c
  · simp
  · by_cases ht : c.truthy <;> simp [ht]

theorem content_appended_iff_truthy_witness :
    processLine [] ("data: \x7b\"content\":\"a\"\x7d".data) =
      [] ++ (match contentField (JsValue.obj [("content", JsValue.str "a")]) with
        | some c => if c.truthy then [c] else []
        | none => []) :=
  content_appended_iff_truthy [] ("data: \x7b\"content\":\"a\"\x7d".data)
    ("\x7b\"content\":\"a\"\x7d".data) (JsValue.obj [("content", JsValue.str "a")]) rfl rfl

/-! ### Claim C3 -/

/-- Claim C3 counterexample: `getSession` has no `try/catch`, so a `fetch`
rejection (network/transport failure) propagates to the caller as an error,
contradicting "neither operation ever propagates an error". -/
theorem demo_safe_counterexample :
    getSession (FetchOutcome.networkError "TypeError: Failed to fetch") =
      Except.error "TypeError: Failed to fetch" := rfl

/-- Claim C3 (amended): `listSessions` converts every failure — network
failure, non-success status, or body parse failure — into the empty
sequence and never surfaces an error; `getSession` converts a non-success
status and a body parse failure (inside `safeJson`) into an absent result,
but a network/transport failure of its `fetch` propagates as an error. -/
theorem demo_safe_amended :
    (∀ f, exceptOk (listSessions f) = true) ∧
    (∀ e, listSessions (FetchOutcome.networkError e) = Except.ok (JsValue.arr [])) ∧
    (∀ res, resOk res = false →
      listSessions (FetchOutcome.response res) = Except.ok (JsValue.arr [])) ∧
    (∀ res, exceptOk (getSession (FetchOutcome.response res)) = true) ∧
    (∀ res, resOk res = false →
      getSession (FetchOutcome.response res) = Except.ok JsValue.null) ∧
    (∀ e, getSession (FetchOutcome.networkError e) = Except.error e) ∧
    (∀ res, resOk res = true → res.bodyErr = false → jsonParse res.body = none →
      listSessions (FetchOutcome.response res) = Except.ok (JsValue.arr [])) ∧
    (∀ res, resOk res = true → res.bodyErr = false → jsonParse res.body = none →
      getSession (FetchOutcome.response res) = Except.ok JsValue.null) := by
  have hnullsj : ∀ res : HttpResponse, res.bodyErr = false → jsonParse res.body = none →
      safeJson res = JsValue.null := by
    intro res herr hparse
    by_cases h204 : res.status = 204
    · simp [safeJson, h204]
    · simp [safeJson, h204, herr, hparse]
  refine ⟨?_, ?_, ?_, ?_, ?_, ?_, ?_, ?_⟩
  · intro f
    rcases f with e | res
    · rfl
    · cases h : resOk res <;> simp [listSessions, exceptOk, h]
  · intro e; rfl
  · intro res h; simp [listSessions, h]
  · intro res; cases h : resOk res <;> simp [getSession, exceptOk, h]
  · intro res h; simp [getSession, h]
  · intro e; rfl
  · intro res hok herr hparse
    simp [listSessions, hok, hnullsj res herr hparse, JsValue.truthy]
  · intro res hok herr hparse
    simp [getSession, hok, hnullsj res herr hparse]

theorem demo_safe_amended_witness :
    listSessions (FetchOutcome.response ⟨500, "", false⟩) = Except.ok (JsValue.arr []) ∧
    getSession (FetchOutcome.response ⟨404, "", false⟩) = Except.ok JsValue.null ∧
    listSessions (FetchOutcome.response ⟨200, "not-json", false⟩) =
      Except.ok (JsValue.arr []) ∧
    getSession (FetchOutcome.response ⟨200, "not-json", false⟩) = Except.ok JsValue.null :=
  ⟨demo_safe_amended.2.2.1 ⟨500, "", false⟩ (by decide),
   demo_safe_amended.2.2.2.2.1 ⟨404, "", false⟩ (by decide),
   demo_safe_amended.2.2.2.2.2.2.1 ⟨200, "not-json", false⟩ rfl rfl rfl,
   demo_safe_amended.2.2.2.2.2.2.2 ⟨200, "not-json", false⟩ rfl rfl rfl⟩

/-! ### Claim C4 -/

/-- Claim C4 counterexample: with whitespace-only `text` and no
`inlineData`, validation passes (`!text` is false for `" "`) and the
request is issued — against a successful streaming response the call
succeeds, with an empty `parts` array in the payload. -/
theorem validation_counterexample :
    exceptOk (sendMessageStream "s" (some " ") none
      (FetchOutcome.response ⟨200, "", false⟩) true []) = true ∧
    mkParts (some " ") none = [] :=
  ⟨rfl, rfl⟩

/-- Claim C4 (amended): `sendMessageStream` fails — for every fetch
outcome, hence before any network I/O — if and only if `sessionId` is
empty, or `text` is absent or the empty string while `inlineData` is absent
or falsy; the two validation error messages are as in the code.
Conversely, whitespace-only (more generally, any non-empty) `text` is not
rejected: against a successful streaming response the call succeeds and
returns the constructed payload, whose `parts` construction alone trims the
text. -/
theorem validation_amended (sid : String) (t : Option String) (i : Option JsValue) :
    ((sid = "" ∨ (textFalsy t = true ∧ inlineFalsy i = true)) ↔
      (∀ f hb ch, exceptOk (sendMessageStream sid t i f hb ch) = false)) ∧
    (sid = "" → ∀ f hb ch,
      sendMessageStream sid t i f hb ch = Except.error "No active session id") ∧
    (sid ≠ "" → textFalsy t = true → inlineFalsy i = true → ∀ f hb ch,
      sendMessageStream sid t i f hb ch = Except.error "Message empty") ∧
    (sid ≠ "" → textFalsy t = false → ∀ res ch, resOk res = true →
      sendMessageStream sid t i (FetchOutcome.response res) true ch =
        Except.ok (⟨AGENT_NAME, "user", mkParts t i, sid, mkStateDelta t, false, "user"⟩,
          runStreamBytes ch)) := by
  refine ⟨⟨?_, ?_⟩, ?_, ?_, ?_⟩
  · intro h f hb ch
    rcases h with h | ⟨h1, h2⟩
    · simp [sendMessageStream, h, exceptOk]
    · by_cases hs : sid = ""
      · simp [sendMessageStream, hs, exceptOk]
      · simp [sendMessageStream, hs, h1, h2, exceptOk]
  · intro hall
    by_cases hs : sid = ""
    · exact Or.inl hs
    · rcases hv : (textFalsy t && inlineFalsy i) with _ | _
      · exfalso
        have hok : resOk ⟨200, "", false⟩ = true := rfl
        have hcontra := hall (FetchOutcome.response ⟨200, "", false⟩) true []
        simp [sendMessageStream, hs, hv, hok, exceptOk] at hcontra
      · simp only [Bool.and_eq_true] at hv
        exact Or.inr hv
  · intro h f hb ch; simp [sendMessageStream, h]
  · intro h1 h2 h3 f hb ch; simp [sendMessageStream, h1, h2, h3]
  · intro h1 h2 res ch hok
    simp [sendMessageStream, h1, h2, hok]

theorem validation_amended_witness :
    sendMessageStream "" (some "hi") none (FetchOutcome.networkError "e") true [] =
      Except.error "No active session id" ∧
    sendMessageStream "s" none none (FetchOutcome.networkError "e") true [] =
      Except.error "Message empty" ∧
    sendMessageStream "s" (some " ") none (FetchOutcome.response ⟨200, "", false⟩) true [] =
      Except.ok (⟨AGENT_NAME, "user", mkParts (some " ") none, "s",
        mkStateDelta (some " "), false, "user"⟩, runStreamBytes []) :=
  ⟨(validation_amended "" (some "hi") none).2.1 rfl (FetchOutcome.networkError "e") true [],
   (validation_amended "s" none none).2.2.1 (by decide) rfl rfl
     (FetchOutcome.networkError "e") true [],
   (validation_amended "s" (some " ") none).2.2.2 (by decide) rfl ⟨200, "", false⟩ [] rfl⟩

/-! ### Claim C5 -/

def badLine : List Char := "data: not-json".data

/-- Claim C5: every complete line whose candidate text fails JSON parsing
is discarded silently: it leaves the accumulator unchanged, and removing
any such line from the processed line sequence does not change the result —
every valid record before and after still contributes its fragment in
order, as the concrete interleaved stream shows.  (The decoding loop is a
total function: no error value exists for a malformed line to produce.) -/
theorem malformed_line_skipped :
    (∀ (acc : List JsValue) (line cand : List Char),
      candidate line = some cand → jsonParseL cand = none →
      processLine acc line = acc) ∧
    (∀ (line cand : List Char), candidate line = some cand → jsonParseL cand = none →
      ∀ (xs ys : List (List Char)) (acc : List JsValue),
        List.foldl processLine acc (xs ++ line :: ys) =
          List.foldl processLine acc (xs ++ ys)) ∧
    runStreamChars
        [("data: \x7b\"content\":\"a\"\x7d\ndata: not-json\ndata: \x7b\"content\":\"b\"\x7d\n").data] =
      [JsValue.str "a", JsValue.str "b"] := by
  have hskip : ∀ (acc : List JsValue) (line cand : List Char),
      candidate line = some cand → jsonParseL cand = none → processLine acc line = acc := by
    intro acc line cand h1 h2
    simp only [processLine, h1, h2]
  refine ⟨hskip, ?_, rfl⟩
  intro line cand h1 h2 xs ys acc
  rw [List.foldl_append, List.foldl_append]
  have hline : ∀ a : List JsValue, processLine a line = a := fun a => hskip a line cand h1 h2
  simp [hline]

theorem malformed_line_skipped_witness :
    processLine [] badLine = [] ∧
    List.foldl processLine []
        (["data: \x7b\"content\":\"a\"\x7d".data] ++
          badLine :: ["data: \x7b\"content\":\"b\"\x7d".data]) =
      List.foldl processLine []
        (["data: \x7b\"content\":\"a\"\x7d".data] ++ ["data: \x7b\"content\":\"b\"\x7d".data]) :=
  ⟨malformed_line_skipped.1 [] badLine ("not-json".data) rfl rfl,
   malformed_line_skipped.2.1 badLine ("not-json".data) rfl rfl
     ["data: \x7b\"content\":\"a\"\x7d".data] ["data: \x7b\"content\":\"b\"\x7d".data] []⟩

/-! ### Claim C6 -/

/-- Claim C6: when the stream ends, leftover buffered text not terminated by
a newline is discarded without contributing to the output: appending a final
newline-free chunk never changes the result, so only complete,
newline-terminated lines are processed. -/
theorem trailing_partial_dropped (chunks : List (List Char)) (extra : List Char)
    (h : '\n' ∉ extra) :
    runStreamChars (chunks ++ [extra]) = runStreamChars chunks := by
  rw [runStreamChars_eq, runStreamChars_eq, List.flatten_append]
  have hx : ([extra] : List (List Char)).flatten = extra := by simp
  rw [hx, drainAux_append chunks.flatten extra [] [], drainAux_no_newline extra h]

theorem trailing_partial_dropped_witness :
    runStreamChars (["data: \x7b\"content\":\"a\"\x7d\n".data] ++ ["data: \x7b\"co".data]) =
      runStreamChars ["data: \x7b\"content\":\"a\"\x7d\n".data] :=
  trailing_partial_dropped ["data: \x7b\"content\":\"a\"\x7d\n".data]
    ("data: \x7b\"co".data) (by decide)

/-! ### Claim C7 -/

/-- Claim C7: for every non-success HTTP response, `createSession`,
`deleteSession` and `uploadFile` fail with the error message
`text || "HTTP " + status`: the response body text when non-empty, else a
string containing the numeric status code. -/
theorem nonsuccess_error_message (res : HttpResponse) (h : resOk res = false) :
    createSession (FetchOutcome.response res) = Except.error (httpErrMsg res) ∧
    deleteSession (FetchOutcome.response res) = Except.error (httpErrMsg res) ∧
    uploadFile (FetchOutcome.response res) = Except.error (httpErrMsg res) ∧
    (bodyText res ≠ "" → httpErrMsg res = bodyText res) ∧
    (bodyText res = "" → httpErrMsg res = "HTTP " ++ toString res.status) := by
  refine ⟨by simp [createSession, h], by simp [deleteSession, h],
    by simp [uploadFile, h], ?_, ?_⟩
  · intro hb; simp [httpErrMsg, hb]
  · intro hb; simp [httpErrMsg, hb]

theorem nonsuccess_error_message_witness :
    createSession (FetchOutcome.response ⟨500, "boom", false⟩) =
      Except.error (httpErrMsg ⟨500, "boom", false⟩) ∧
    httpErrMsg ⟨500, "boom", false⟩ = bodyText ⟨500, "boom", false⟩ ∧
    httpErrMsg ⟨404, "", false⟩ = "HTTP " ++ toString (404 : Nat) :=
  ⟨(nonsuccess_error_message ⟨500, "boom", false⟩ (by decide)).1,
   (nonsuccess_error_message ⟨500, "boom", false⟩ (by decide)).2.2.2.1 (by decide),
   (nonsuccess_error_message ⟨404, "", false⟩ (by decide)).2.2.2.2 rfl⟩

/-! ### Claim C8 -/

/-- Claim C8: for `text = "vehicle id: XY-12 please check"` the derived
state delta is `{ vehicle_id: "XY-12" }`; text containing no id-like token
(no case-insensitive `id` followed by `[:\s]*` separators and a token
character) yields an absent state delta; matching is case-insensitive and,
being single-match, the first (leftmost) match wins. -/
theorem vehicle_id_state_delta :
    mkStateDelta (some "vehicle id: XY-12 please check") =
      some (JsValue.obj [("vehicle_id", JsValue.str "XY-12")]) ∧
    (∀ s : String, hasIdLike s.data = false → mkStateDelta (some s) = none) ∧
    extractVehicleId "Vehicle ID 42" = some "42" ∧
    extractVehicleId "id: AA-1 and id: BB-2" = some "AA-1" := by
  refine ⟨rfl, ?_, rfl, rfl⟩
  intro s h
  have hnone : extractVehicleId s = none := scanVehicleId_eq_none s.data h
  simp [mkStateDelta, hnone]

theorem vehicle_id_state_delta_witness :
    mkStateDelta (some "please check the engine") = none :=
  vehicle_id_state_delta.2.1 "please check the engine" (by decide)

/-! ### Claim C9 -/

/-- Substring membership (used to state that a text contains no label). -/
def containsSub (pat : List Char) : List Char → Bool
  | [] => pat.isEmpty
  | c :: rest => pat.isPrefixOf (c :: rest) || containsSub pat rest

/-- Claim C9: the pattern's separator `[:\s]*` may match zero characters, so
text with no `id:` or `vehicle id:` label — such as the word `slide`, which
merely contains the letters `id` followed by an alphanumeric — still
produces a non-absent state delta (here `{ vehicle_id: "e" }`). -/
theorem lenient_id_pattern_overmatch :
    extractVehicleId "slide" = some "e" ∧
    mkStateDelta (some "slide") = some (JsValue.obj [("vehicle_id", JsValue.str "e")]) ∧
    containsSub "id:".data "slide".data = false ∧
    containsSub "vehicle id:".data "slide".data = false :=
  ⟨rfl, rfl, rfl, rfl⟩

/-! ### Claim C10 -/

/-- Claim C10: a successful (2xx, non-204) `listSessions` response whose
body parses to a falsy JSON value yields the empty sequence (the
`(await safeJson(res)) || []` fallback); and `safeJson` itself yields no
body (`null`) for every 204 response and for every body that fails to parse
as JSON. -/
theorem safeJson_falsy_behaviour :
    (∀ (res : HttpResponse) (v : JsValue), resOk res = true → res.status ≠ 204 →
      res.bodyErr = false → jsonParse res.body = some v → v.truthy = false →
      listSessions (FetchOutcome.response res) = Except.ok (JsValue.arr [])) ∧
    (∀ res : HttpResponse, res.status = 204 → safeJson res = JsValue.null) ∧
    (∀ res : HttpResponse, res.bodyErr = false → jsonParse res.body = none →
      safeJson res = JsValue.null) := by
  refine ⟨?_, ?_, ?_⟩
  · intro res v hok h204 herr hparse hfalsy
    have hsj : safeJson res = v := by simp [safeJson, h204, herr, hparse]
    simp [listSessions, hok, hsj, hfalsy]
  · intro res h; simp [safeJson, h]
  · intro res herr hparse
    by_cases h204 : res.status = 204
    · simp [safeJson, h204]
    · simp [safeJson, h204, herr, hparse]

theorem safeJson_falsy_behaviour_witness :
    listSessions (FetchOutcome.response ⟨200, "null", false⟩) = Except.ok (JsValue.arr []) ∧
    safeJson ⟨204, "[1]", false⟩ = JsValue.null ∧
    safeJson ⟨200, "not-json", false⟩ = JsValue.null :=
  ⟨safeJson_falsy_behaviour.1 ⟨200, "null", false⟩ JsValue.null rfl (by decide) rfl rfl rfl,
   safeJson_falsy_behaviour.2.1 ⟨204, "[1]", false⟩ rfl,
   safeJson_falsy_behaviour.2.2 ⟨200, "not-json", false⟩ rfl rfl⟩

end CarPulse
